import Mathlib

/-!
Shallow embedding of `job01_record_voice.py`, the interactive corpus-recording
tool. Strings are modelled as `List Char` (Python strings are character
sequences and the scorer is character-level), Python floats as `ℚ`, and file
contents as explicit values passed to the functions that the Python code
reads them from.
-/

namespace RecordVoice

/-- Unit-cost character-level edit distance (insert / delete / substitute),
the function computed by `Levenshtein.distance` in the source
(`calculate_accuracy`, line 94). Standard recursion. -/
def levenshtein : List Char → List Char → Nat
  | [], ys => ys.length
  | xs, [] => xs.length
  | x :: xs, y :: ys =>
      if x = y then levenshtein xs ys
      else 1 + min (levenshtein xs ys) (min (levenshtein (x :: xs) ys) (levenshtein xs (y :: ys)))
  termination_by xs ys => xs.length + ys.length

/-- Embedding of `calculate_accuracy(original, transcribed)` (source lines
90–99): empty hypothesis short-circuits to `0.0`; otherwise Levenshtein
distance normalized by the max length, mapped to a percentage and floored at
`0.0`.  The `max_length == 0` branch is kept exactly as in the source even
though it is unreachable (an empty `transcribed` already returned). -/
def calculate_accuracy (original transcribed : List Char) : ℚ :=
  if transcribed = [] then 0
  else
    let distance : ℕ := levenshtein original transcribed
    let max_length : ℕ := max original.length transcribed.length
    if max_length = 0 then (if original = transcribed then 100 else 0)
    else max 0 ((1 - (distance : ℚ) / (max_length : ℚ)) * 100)

theorem levenshtein_nil_left (ys : List Char) : levenshtein [] ys = ys.length := by
  cases ys <;> simp [levenshtein]

theorem levenshtein_nil_right (xs : List Char) : levenshtein xs [] = xs.length := by
  cases xs <;> simp [levenshtein]

theorem levenshtein_cons_cons (x y : Char) (xs ys : List Char) :
    levenshtein (x :: xs) (y :: ys) =
      if x = y then levenshtein xs ys
      else 1 + min (levenshtein xs ys)
        (min (levenshtein (x :: xs) ys) (levenshtein xs (y :: ys))) := by
  simp [levenshtein]

theorem levenshtein_self (xs : List Char) : levenshtein xs xs = 0 := by
  induction xs with
  | nil => simp [levenshtein]
  | cons x xs ih => simp [levenshtein_cons_cons, ih]

theorem levenshtein_symm (xs ys : List Char) : levenshtein xs ys = levenshtein ys xs := by
  have H : ∀ n (xs ys : List Char), xs.length + ys.length = n →
      levenshtein xs ys = levenshtein ys xs := by
    intro n
    induction n using Nat.strong_induction_on with
    | _ n ih =>
      intro xs ys hn
      match xs, ys with
      | [], ys => simp [levenshtein_nil_left, levenshtein_nil_right]
      | x :: xs, [] => simp [levenshtein_nil_left, levenshtein_nil_right]
      | x :: xs, y :: ys =>
        simp only [List.length_cons] at hn
        have h1 : levenshtein xs ys = levenshtein ys xs :=
          ih (xs.length + ys.length) (by omega) xs ys rfl
        have h2 : levenshtein (x :: xs) ys = levenshtein ys (x :: xs) :=
          ih ((x :: xs).length + ys.length) (by simp; omega) (x :: xs) ys rfl
        have h3 : levenshtein xs (y :: ys) = levenshtein (y :: ys) xs :=
          ih (xs.length + (y :: ys).length) (by simp; omega) xs (y :: ys) rfl
        rw [levenshtein_cons_cons, levenshtein_cons_cons, h1, h2, h3]
        by_cases hxy : x = y
        · simp [hxy]
        · have hyx : ¬ y = x := fun h => hxy h.symm
          rw [if_neg hxy, if_neg hyx]
          omega
  exact H (xs.length + ys.length) xs ys rfl

/-- When the hypothesis is non-empty, `calculate_accuracy` takes the general
branch: the `max_length == 0` test is false because the max length is at
least the hypothesis's positive length. -/
theorem calculate_accuracy_of_ne_nil (o t : List Char) (ht : t ≠ []) :
    calculate_accuracy o t =
      max 0 ((1 - (levenshtein o t : ℚ) / ((max o.length t.length : ℕ) : ℚ)) * 100) := by
  have htl : t.length ≠ 0 := by simpa using ht
  have hm : max o.length t.length ≠ 0 := by
    intro h
    have hle := le_max_right o.length t.length
    rw [h] at hle
    exact htl (Nat.le_zero.mp hle)
  simp [calculate_accuracy, ht, hm]

/-- Scoring an empty reference against a non-empty hypothesis gives 0. -/
theorem calculate_accuracy_nil_left (t : List Char) (ht : t ≠ []) :
    calculate_accuracy [] t = 0 := by
  have htl : (t.length : ℚ) ≠ 0 := by
    simpa using fun h => ht (List.length_eq_zero.mp h)
  rw [calculate_accuracy_of_ne_nil [] t ht]
  simp [levenshtein_nil_left, div_self htl]

theorem calculate_accuracy_nonneg (o t : List Char) : 0 ≤ calculate_accuracy o t := by
  by_cases ht : t = []
  · simp [calculate_accuracy, ht]
  · rw [calculate_accuracy_of_ne_nil o t ht]
    exact le_max_left 0 _

theorem calculate_accuracy_le_100 (o t : List Char) : calculate_accuracy o t ≤ 100 := by
  by_cases ht : t = []
  · simp [calculate_accuracy, ht]
  · rw [calculate_accuracy_of_ne_nil o t ht, max_le_iff]
    refine ⟨by norm_num, ?_⟩
    have hd : (0 : ℚ) ≤ (levenshtein o t : ℚ) / ((max o.length t.length : ℕ) : ℚ) :=
      div_nonneg (by positivity) (by positivity)
    nlinarith

/-- C1: the claim asserts `calculate_accuracy("", "") = 100.0`, but the code
returns `0.0`: the `if not transcribed` guard fires before the
`max_length == 0` special case (which would return `100.0` and is
unreachable). Evaluating the code at the failing input. -/
theorem calculate_accuracy_empty_empty_eq_zero :
    calculate_accuracy [] [] = 0 ∧ calculate_accuracy [] [] ≠ 100 := by
  constructor <;> simp [calculate_accuracy]

/-- C3: for a non-empty hypothesis the score is exactly
`max 0 ((1 - distance / max_len) * 100)` with `distance` the unit-cost
character-level edit distance and `max_len` the larger of the two lengths;
and for all pairs whatsoever the score lies in `[0, 100]`. -/
theorem calculate_accuracy_formula_and_range :
    (∀ o t : List Char, t ≠ [] →
      calculate_accuracy o t =
        max 0 ((1 - (levenshtein o t : ℚ) / ((max o.length t.length : ℕ) : ℚ)) * 100)) ∧
    (∀ o t : List Char, 0 ≤ calculate_accuracy o t ∧ calculate_accuracy o t ≤ 100) :=
  ⟨calculate_accuracy_of_ne_nil,
   fun o t => ⟨calculate_accuracy_nonneg o t, calculate_accuracy_le_100 o t⟩⟩

theorem calculate_accuracy_formula_and_range_witness :
    (['b'] ≠ ([] : List Char)) ∧
    calculate_accuracy ['a'] ['b'] =
      max 0 ((1 - (levenshtein ['a'] ['b'] : ℚ) /
        ((max (List.length ['a']) (List.length ['b']) : ℕ) : ℚ)) * 100) :=
  ⟨by decide, calculate_accuracy_formula_and_range.1 ['a'] ['b'] (by decide)⟩

/-- C4: the claim asserts `calculate_accuracy(s, s) = 100.0` for every `s`
including the empty string, but the code returns `0.0` at `s = ""` (the
empty-hypothesis guard fires first); the identity does hold for every
non-empty `s`. -/
theorem calculate_accuracy_self_eval :
    calculate_accuracy [] [] ≠ 100 ∧
    (∀ s : List Char, s ≠ [] → calculate_accuracy s s = 100) := by
  refine ⟨by simp [calculate_accuracy], fun s hs => ?_⟩
  rw [calculate_accuracy_of_ne_nil s s hs, levenshtein_self]
  norm_num

theorem calculate_accuracy_self_eval_witness :
    (['a'] ≠ ([] : List Char)) ∧ calculate_accuracy ['a'] ['a'] = 100 :=
  ⟨by decide, calculate_accuracy_self_eval.2 ['a'] (by decide)⟩

/-- C10: the computed scorer is symmetric: swapping reference and hypothesis
gives the same accuracy, because edit distance and the max-length normalizer
are symmetric and the empty-hypothesis shortcut returns the same value the
formula would. -/
theorem calculate_accuracy_symm (a b : List Char) :
    calculate_accuracy a b = calculate_accuracy b a := by
  by_cases hb : b = []
  · subst hb
    by_cases ha : a = []
    · subst ha; rfl
    · rw [calculate_accuracy_nil_left a ha]
      simp [calculate_accuracy]
  · by_cases ha : a = []
    · subst ha
      rw [calculate_accuracy_nil_left b hb]
      simp [calculate_accuracy]
    · rw [calculate_accuracy_of_ne_nil a b hb, calculate_accuracy_of_ne_nil b a ha,
        levenshtein_symm, Nat.max_comm]

/-! ## Audio capture (`record_audio`, source lines 55–70)

A capture is modelled by the list of sample chunks read while the hold key
was pressed (one entry per `stream.read(1024)`). After the loop the code
runs `np.concatenate(recording)` and writes the result; `np.concatenate`
raises `ValueError` on an empty list. -/

/-- Embedding of `np.concatenate` on the list of buffered chunks: raises
(`Except.error`) on an empty list, otherwise concatenates. -/
def np_concatenate (chunks : List (List ℤ)) : Except String (List ℤ) :=
  if chunks = [] then .error "need at least one array to concatenate"
  else .ok chunks.flatten

/-- Embedding of `record_audio`: the samples written to the WAV file are the
concatenation of the chunks buffered while the key was held; the error case
is the exception `np.concatenate` raises, which `record_audio` does not
catch. -/
def record_audio (chunks : List (List ℤ)) : Except String (List ℤ) :=
  np_concatenate chunks

/-- C2: the claim asserts a release before any chunk is buffered does not
crash, but the code calls `np.concatenate` on the empty list, which raises
`ValueError`; the exception propagates out of `record_audio` uncaught.
Evaluating the code at the failing input. -/
theorem record_audio_empty_raises :
    record_audio [] = Except.error "need at least one array to concatenate" := rfl

/-! ## Transcription (`speech_to_text`, source lines 73–87) -/

/-- Outcome of `recognizer.recognize_google`: recognized text,
`sr.UnknownValueError` (unintelligible speech), or `sr.RequestError`
(service/request failure). -/
inductive RecogOutcome where
  | text (t : List Char)
  | unknownValue
  | requestError (detail : List Char)

/-- Embedding of `speech_to_text`: returns the recognized text, and catches
both `UnknownValueError` and `RequestError`, returning `""` for each. -/
def speech_to_text (r : RecogOutcome) : List Char :=
  match r with
  | .text t => t
  | .unknownValue => []
  | .requestError _ => []

/-- The per-take processing step of the main loop (source lines 127–128):
transcribe, then score against the sentence. It returns normally for every
recognizer outcome, so the loop always reaches the decision prompt. -/
def process_take (sentence : List Char) (r : RecogOutcome) : List Char × ℚ :=
  (speech_to_text r, calculate_accuracy sentence (speech_to_text r))

/-- C9: both recognition failure modes are downgraded to the empty
transcription, which scores accuracy 0 regardless of the reference, and the
per-take processing still produces a (transcription, accuracy) pair for the
decision prompt instead of aborting. -/
theorem speech_to_text_errors_downgraded (sentence detail : List Char) :
    speech_to_text .unknownValue = [] ∧
    speech_to_text (.requestError detail) = [] ∧
    process_take sentence .unknownValue = ([], 0) ∧
    process_take sentence (.requestError detail) = ([], 0) := by
  refine ⟨rfl, rfl, ?_, ?_⟩ <;> simp [process_take, speech_to_text, calculate_accuracy]

/-! ## Progress store (`load_progress` / `save_progress`, source lines 38–52)

The checkpoint file's content is modelled as `Option (List Char)` (`none`
when `os.path.exists` is false). `load_progress` does
`int(f.read().strip())`, returning 0 on `ValueError`; `save_progress`
writes `str(index)`. -/

/-- The whitespace characters `str.strip()` removes (ASCII subset, which is
all the claims exercise). -/
def isPySpace (c : Char) : Bool :=
  c == ' ' || c == '\t' || c == '\n' || c == '\r' || c == '\x0b' || c == '\x0c'

/-- Embedding of Python `str.strip()`: drop leading and trailing
whitespace. -/
def pyStrip (cs : List Char) : List Char :=
  ((cs.dropWhile isPySpace).reverse.dropWhile isPySpace).reverse

/-- Numeric value of a digit character. -/
def digitVal (c : Char) : ℕ := c.toNat - 48

/-- Value of a list of decimal digit characters, most significant first. -/
def decimalVal (cs : List Char) : ℕ :=
  cs.foldl (fun acc c => 10 * acc + digitVal c) 0

/-- Embedding of Python `int(s)` on the forms the program exercises: an
optional sign followed by decimal digits; anything else raises
`ValueError`, modelled as `none`. -/
def pyIntParse (cs : List Char) : Option ℤ :=
  match cs with
  | [] => none
  | c :: rest =>
      if c = '-' then
        if rest ≠ [] ∧ ∀ d ∈ rest, d.isDigit then some (-(decimalVal rest : ℤ)) else none
      else if c = '+' then
        if rest ≠ [] ∧ ∀ d ∈ rest, d.isDigit then some ((decimalVal rest : ℤ)) else none
      else
        if c.isDigit ∧ ∀ d ∈ rest, d.isDigit then some ((decimalVal (c :: rest) : ℤ)) else none

/-- Embedding of `load_progress`: 0 when the file is absent, otherwise
`int(content.strip())` with `ValueError` mapped to 0. -/
def load_progress (file : Option (List Char)) : ℤ :=
  match file with
  | none => 0
  | some content => (pyIntParse (pyStrip content)).getD 0

/-- Embedding of `save_progress`: the file content after writing
`str(index)` for a nonnegative index — its decimal digits, most significant
first. -/
def save_progress (index : ℕ) : List Char :=
  if index = 0 then ['0'] else (Nat.digits 10 index).reverse.map Nat.digitChar

/-- C7: an absent checkpoint file loads as 0, and content that does not
parse as an integer also loads as 0, identically to the missing-file case;
neither is an error. -/
theorem load_progress_default_zero :
    load_progress none = 0 ∧
    ∀ content : List Char, pyIntParse (pyStrip content) = none →
      load_progress (some content) = 0 ∧ load_progress (some content) = load_progress none := by
  refine ⟨rfl, fun content h => ?_⟩
  simp [load_progress, h]

theorem load_progress_default_zero_witness :
    pyIntParse (pyStrip ['a', 'b', 'c']) = none ∧
    load_progress (some ['a', 'b', 'c']) = 0 :=
  ⟨by decide, (load_progress_default_zero.2 ['a', 'b', 'c'] (by decide)).1⟩

theorem digitChar_facts (d : ℕ) (hd : d < 10) :
    (Nat.digitChar d).isDigit = true ∧ isPySpace (Nat.digitChar d) = false ∧
    Nat.digitChar d ≠ '-' ∧ Nat.digitChar d ≠ '+' ∧ digitVal (Nat.digitChar d) = d := by
  interval_cases d <;> decide

theorem save_progress_ne_nil (n : ℕ) : save_progress n ≠ [] := by
  unfold save_progress
  split
  · simp
  · rename_i hn
    intro h
    rw [List.map_eq_nil_iff, List.reverse_eq_nil_iff] at h
    exact hn (Nat.digits_eq_nil_iff_eq_zero.mp h)

theorem save_progress_mem (n : ℕ) :
    ∀ c ∈ save_progress n, ∃ d, d < 10 ∧ c = Nat.digitChar d := by
  intro c hc
  unfold save_progress at hc
  split at hc
  · simp at hc
    exact ⟨0, by norm_num, hc⟩
  · rw [List.mem_map] at hc
    obtain ⟨d, hd, rfl⟩ := hc
    rw [List.mem_reverse] at hd
    exact ⟨d, Nat.digits_lt_base (by norm_num) hd, rfl⟩

theorem dropWhile_eq_self_of_false (p : Char → Bool) (cs : List Char)
    (h : ∀ c ∈ cs, p c = false) : cs.dropWhile p = cs := by
  cases cs with
  | nil => rfl
  | cons a l =>
    rw [List.dropWhile_cons, h a (List.mem_cons_self a l)]
    simp

theorem pyStrip_eq_self (cs : List Char) (h : ∀ c ∈ cs, isPySpace c = false) :
    pyStrip cs = cs := by
  unfold pyStrip
  rw [dropWhile_eq_self_of_false _ _ h,
    dropWhile_eq_self_of_false _ _ (fun c hc => h c (List.mem_reverse.mp hc))]
  exact List.reverse_reverse cs

theorem foldl_reverse_ofDigits (l : List ℕ) :
    l.reverse.foldl (fun acc d => 10 * acc + d) 0 = Nat.ofDigits 10 l := by
  induction l with
  | nil => simp [Nat.ofDigits]
  | cons d l ih =>
    rw [List.reverse_cons, List.foldl_append, ih]
    simp [Nat.ofDigits_cons]
    ring

theorem decimalVal_map_digitChar (l : List ℕ) (h : ∀ d ∈ l, d < 10) :
    decimalVal (l.map Nat.digitChar) = l.foldl (fun acc d => 10 * acc + d) 0 := by
  have H : ∀ (l : List ℕ), (∀ d ∈ l, d < 10) → ∀ acc : ℕ,
      l.foldl (fun acc d => 10 * acc + digitVal (Nat.digitChar d)) acc =
      l.foldl (fun acc d => 10 * acc + d) acc := by
    intro l
    induction l with
    | nil => intro _ acc; rfl
    | cons d l ih =>
      intro hl acc
      simp only [List.foldl_cons]
      rw [(digitChar_facts d (hl d (List.mem_cons_self d l))).2.2.2.2]
      exact ih (fun x hx => hl x (List.mem_cons_of_mem d hx)) _
  unfold decimalVal
  rw [List.foldl_map]
  exact H l h 0

theorem decimalVal_save_progress (n : ℕ) : decimalVal (save_progress n) = n := by
  unfold save_progress
  split
  · rename_i h; subst h; decide
  · rw [decimalVal_map_digitChar ((Nat.digits 10 n).reverse)
      (fun d hd => Nat.digits_lt_base (by norm_num) (List.mem_reverse.mp hd)),
      foldl_reverse_ofDigits, Nat.ofDigits_digits]

theorem pyIntParse_save_progress (n : ℕ) :
    pyIntParse (save_progress n) = some ((n : ℤ)) := by
  have hmem := save_progress_mem n
  have hval := decimalVal_save_progress n
  cases hsp : save_progress n with
  | nil => exact absurd hsp (save_progress_ne_nil n)
  | cons c rest =>
    rw [hsp] at hmem hval
    obtain ⟨d, hd10, hc⟩ := hmem c (List.mem_cons_self _ _)
    subst hc
    have hfacts := digitChar_facts d hd10
    have hrest : ∀ x ∈ rest, x.isDigit = true := by
      intro x hx
      obtain ⟨e, he10, hx'⟩ := hmem x (List.mem_cons_of_mem _ hx)
      subst hx'
      exact (digitChar_facts e he10).1
    simp only [pyIntParse]
    rw [if_neg hfacts.2.2.1, if_neg hfacts.2.2.2.1, if_pos ⟨hfacts.1, hrest⟩, hval]

theorem pyStrip_save_progress (n : ℕ) : pyStrip (save_progress n) = save_progress n := by
  apply pyStrip_eq_self
  intro c hc
  obtain ⟨d, hd10, rfl⟩ := save_progress_mem n c hc
  exact (digitChar_facts d hd10).2.1

/-- C8: round trip — for every valid index `n` (any `n` with
`0 ≤ n ≤ total_sentences`, including `n = total_sentences`), saving and then
loading the checkpoint returns exactly `n`. -/
theorem save_load_roundtrip (n total : ℕ) (_h : n ≤ total) :
    load_progress (some (save_progress n)) = (n : ℤ) := by
  simp [load_progress, pyStrip_save_progress, pyIntParse_save_progress]

theorem save_load_roundtrip_witness :
    (3 ≤ 5) ∧ load_progress (some (save_progress 3)) = (3 : ℤ) :=
  ⟨by decide, save_load_roundtrip 3 5 (by decide)⟩

/-! ## Session decision loop (`main`, source lines 102–165)

`main` loads `current_index` from the progress file, returns at once when
`current_index >= total_sentences`, and otherwise loops: record, transcribe,
score, then act on the operator's choice — `'1'` play (no state change),
`'2'` redo (deletes the file, no checkpoint change), `'3'` advance
(`save_progress(current_index + 1)`; `current_index += 1`), `'4'` quit
(`save_progress(current_index)`; return), anything else invalid (no state
change).  The state tracked here is `current_index`, the integer stored in
the progress file, and whether `main` has returned. -/

inductive Choice where
  | play
  | redo
  | advance
  | quit
  | invalid
deriving DecidableEq

structure SessionState where
  current : ℕ
  saved : ℕ
  finished : Bool
deriving DecidableEq

/-- One pass of the inner decision loop (source lines 138–161): once the
session is over (quit taken or all sentences done) no further decision is
read; otherwise the choice acts as in the source. -/
def step (total : ℕ) (s : SessionState) (c : Choice) : SessionState :=
  if s.finished then s
  else if total ≤ s.current then s
  else
    match c with
    | .play => s
    | .redo => s
    | .advance => ⟨s.current + 1, s.current + 1, false⟩
    | .quit => ⟨s.current, s.current, true⟩
    | .invalid => s

/-- Session start (source lines 104–110): `current_index` is the loaded
checkpoint `c0`, the file still holds `c0`, and the session is already over
when `current_index >= total_sentences`. -/
def initState (total c0 : ℕ) : SessionState :=
  ⟨c0, c0, decide (total ≤ c0)⟩

/-- A whole session: the state after processing a list of decisions. -/
def run (total c0 : ℕ) (cs : List Choice) : SessionState :=
  cs.foldl (step total) (initState total c0)

/-- Run invariant: the stored checkpoint always equals `current_index`, and
`current_index` never exceeds the sentence count. -/
def GoodState (total : ℕ) (s : SessionState) : Prop :=
  s.saved = s.current ∧ s.current ≤ total

theorem step_good (total : ℕ) (s : SessionState) (c : Choice)
    (h : GoodState total s) : GoodState total (step total s c) := by
  obtain ⟨h1, h2⟩ := h
  unfold step
  split
  · exact ⟨h1, h2⟩
  · split
    · exact ⟨h1, h2⟩
    · rename_i hfin hlt
      cases c
      · exact ⟨h1, h2⟩
      · exact ⟨h1, h2⟩
      · exact ⟨rfl, show s.current + 1 ≤ total by omega⟩
      · exact ⟨rfl, h2⟩
      · exact ⟨h1, h2⟩

theorem run_good (total c0 : ℕ) (h : c0 ≤ total) (cs : List Choice) :
    GoodState total (run total c0 cs) := by
  have H : ∀ (cs : List Choice) (s : SessionState), GoodState total s →
      GoodState total (cs.foldl (step total) s) := by
    intro cs
    induction cs with
    | nil => intro s hs; exact hs
    | cons c cs ih => intro s hs; exact ih _ (step_good total s c hs)
  exact H cs _ ⟨rfl, h⟩

theorem step_saved_cases (total : ℕ) (s : SessionState) (c : Choice)
    (h : s.saved = s.current) :
    s.saved ≤ (step total s c).saved ∧
    ((step total s c).saved ≠ s.saved →
      c = Choice.advance ∧ (step total s c).saved = s.current + 1) := by
  unfold step
  split
  · exact ⟨le_refl _, fun hne => absurd rfl hne⟩
  · split
    · exact ⟨le_refl _, fun hne => absurd rfl hne⟩
    · cases c
      · exact ⟨le_refl _, fun hne => absurd rfl hne⟩
      · exact ⟨le_refl _, fun hne => absurd rfl hne⟩
      · exact ⟨show s.saved ≤ s.current + 1 by omega, fun _ => ⟨rfl, rfl⟩⟩
      · exact ⟨h.le, fun hne => absurd h.symm hne⟩
      · exact ⟨le_refl _, fun hne => absurd rfl hne⟩

/-- C5: throughout a run started from a loaded checkpoint within range, the
stored checkpoint stays in `[0, total_sentences]` (it is a `ℕ`, so `0 ≤` is
inherent), a further decision never decreases it, and any decision that
changes it is the advance decision, which writes `current_index + 1`; play,
redo, invalid input and quit leave the stored value unchanged. -/
theorem checkpoint_invariant (total c0 : ℕ) (h : c0 ≤ total) (cs : List Choice) :
    (run total c0 cs).saved ≤ total ∧
    ∀ c : Choice,
      (run total c0 cs).saved ≤ (step total (run total c0 cs) c).saved ∧
      ((step total (run total c0 cs) c).saved ≠ (run total c0 cs).saved →
        c = Choice.advance ∧
        (step total (run total c0 cs) c).saved = (run total c0 cs).current + 1) := by
  have hg := run_good total c0 h cs
  exact ⟨hg.1.trans_le hg.2, fun c => step_saved_cases total _ c hg.1⟩

theorem checkpoint_invariant_witness :
    (0 ≤ 2) ∧ (run 2 0 [Choice.advance]).saved ≤ 2 :=
  ⟨by decide, (checkpoint_invariant 2 0 (by decide) [Choice.advance]).1⟩

/-- C6: the quit decision persists `checkpoint = current_index` (not
`current_index + 1`) and terminates the session; concretely, advancing
through sentence 1 and quitting while sentence 2 is in progress leaves the
stored checkpoint at exactly 1, and a session resumed from that checkpoint
starts at `current_index = 1`, i.e. sentence 2. -/
theorem quit_saves_current_index :
    (∀ (total : ℕ) (s : SessionState), s.finished = false → s.current < total →
      (step total s Choice.quit).saved = s.current ∧
      (step total s Choice.quit).finished = true) ∧
    (∀ total : ℕ, 2 ≤ total →
      (run total 0 [Choice.advance, Choice.quit]).saved = 1 ∧
      (run total 0 [Choice.advance, Choice.quit]).finished = true ∧
      (initState total (run total 0 [Choice.advance, Choice.quit]).saved).current = 1) := by
  constructor
  · intro total s hf hc
    unfold step
    rw [if_neg (by simp [hf]), if_neg (not_le.mpr hc)]
    exact ⟨rfl, rfl⟩
  · intro total htot
    have e1 : initState total 0 = ⟨0, 0, false⟩ := by
      unfold initState
      congr 1
      simp
      omega
    have e2 : step total ⟨0, 0, false⟩ Choice.advance = ⟨1, 1, false⟩ := by
      unfold step
      rw [if_neg (by simp), if_neg (show ¬ total ≤ 0 by omega)]
    have e3 : step total ⟨1, 1, false⟩ Choice.quit = ⟨1, 1, true⟩ := by
      unfold step
      rw [if_neg (by simp), if_neg (show ¬ total ≤ 1 by omega)]
    unfold run
    rw [List.foldl_cons, List.foldl_cons, List.foldl_nil, e1, e2, e3]
    exact ⟨rfl, rfl, rfl⟩

theorem quit_saves_current_index_witness :
    ((⟨1, 1, false⟩ : SessionState).finished = false) ∧
    ((⟨1, 1, false⟩ : SessionState).current < 2) ∧
    (step 2 ⟨1, 1, false⟩ Choice.quit).saved = 1 ∧
    (2 ≤ 2) ∧ (run 2 0 [Choice.advance, Choice.quit]).saved = 1 :=
  ⟨rfl, by decide, (quit_saves_current_index.1 2 ⟨1, 1, false⟩ rfl (by decide)).1,
   by decide, (quit_saves_current_index.2 2 (by decide)).1⟩

end RecordVoice
